import Mathlib

/-!
Shallow embedding of `src/main.py` of the etf-holdings-tracker repository
(an ETF-holdings change detector: CSV ingestion, per-ticker change
detection against a persisted JSON state, and Discord notification).

Modelling conventions:
* Python strings are Lean `String`s; the relevant string primitives
  (`str.strip`, `str.upper`, `str.replace(c, '')`) are re-implemented over
  `List Char` so that everything reduces in the kernel.
* `csv.reader` (excel dialect: delimiter `,`, quote `"`, doublequote,
  non-strict) is modelled by the state machine `splitCSVGo` for a single
  line, which is how `main.py` invokes it (`next(csv.reader([line]))`).
* Python `float()` is modelled exactly over decimals with optional sign,
  fractional part and exponent, producing a rational.  Binary rounding of
  IEEE doubles, `inf`/`nan` spellings and digit-group underscores are
  outside the model; no property below depends on them.
* Python exceptions become the `PyError` sum; fallible code returns
  `Except PyError _`.  The external HTTP fetch, Discord transport and file
  system are collaborators: the fetched text, the current date string and
  the transport's HTTP status per ticker are parameters of the run.
-/

/-! ## Python string primitives -/

/-- The whitespace characters stripped by Python's `str.strip()`
(space, tab, newline, carriage return, vertical tab, form feed). -/
def pySpace (c : Char) : Bool :=
  c == ' ' || c == '\t' || c == '\n' || c == '\r' ||
  c == Char.ofNat 11 || c == Char.ofNat 12

/-- Strip leading and trailing whitespace from a character list. -/
def stripList (cs : List Char) : List Char :=
  ((cs.dropWhile pySpace).reverse.dropWhile pySpace).reverse

/-- Python `s.strip()`. -/
def pyStrip (s : String) : String := ⟨stripList s.data⟩

/-- Python `s.upper()` (ASCII letters; the feeds at hand are ASCII). -/
def pyUpper (s : String) : String := ⟨s.data.map Char.toUpper⟩

/-- Python `s.replace(c, '')`: delete every occurrence of the character. -/
def removeAll (c : Char) (s : String) : String := ⟨s.data.filter (fun d => d ≠ c)⟩

/-! ## CSV single-line field splitting (`next(csv.reader([line]))`)

CPython's `_csv` parser for the excel dialect, restricted to a single
line of input, is the following four-state machine. -/

inductive CsvState where
  | startField
  | inField
  | inQuoted
  | quoteInQuoted
deriving DecidableEq, Repr

/-- One step per character of CPython's `_csv` field scanner
(delimiter `,`, quotechar `"`, doublequote=True, strict=False). -/
def splitCSVGo (st : CsvState) (field : List Char) (cs : List Char)
    (acc : List String) : List String :=
  match cs with
  | [] => acc ++ [⟨field⟩]
  | c :: rest =>
    match st with
    | .startField =>
      if c = '"' then splitCSVGo .inQuoted field rest acc
      else if c = ',' then splitCSVGo .startField [] rest (acc ++ [⟨field⟩])
      else splitCSVGo .inField (field ++ [c]) rest acc
    | .inField =>
      if c = ',' then splitCSVGo .startField [] rest (acc ++ [⟨field⟩])
      else splitCSVGo .inField (field ++ [c]) rest acc
    | .inQuoted =>
      if c = '"' then splitCSVGo .quoteInQuoted field rest acc
      else splitCSVGo .inQuoted (field ++ [c]) rest acc
    | .quoteInQuoted =>
      if c = '"' then splitCSVGo .inQuoted (field ++ ['"']) rest acc
      else if c = ',' then splitCSVGo .startField [] rest (acc ++ [⟨field⟩])
      else splitCSVGo .inField (field ++ [c]) rest acc

/-- `next(csv.reader([line]))`: the fields of one CSV line.
An empty line yields the empty row, as in CPython. -/
def splitCSVLine (line : String) : List String :=
  if line = "" then [] else splitCSVGo .startField [] line.data []

/-- `[c.strip() for c in next(csv.reader([line]))]` — how `main.py`
splits every line. -/
def splitLine (line : String) : List String :=
  (splitCSVLine line).map pyStrip

/-! ## Python `float()` over decimals, and `int()` truncation -/

/-- Numeric value of a digit string (digits already validated). -/
def digitsToNat (cs : List Char) : Nat :=
  cs.foldl (fun a c => a * 10 + (c.toNat - 48)) 0

/-- The exponent suffix of a float literal: empty, or `e`/`E`, an optional
sign, and at least one digit.  Returns the exponent value. -/
def parseExpPart (cs : List Char) : Option Int :=
  match cs with
  | [] => some 0
  | c :: rest =>
    if c = 'e' ∨ c = 'E' then
      match rest with
      | '+' :: ds =>
        if ds ≠ [] ∧ ds.all Char.isDigit then some (digitsToNat ds) else none
      | '-' :: ds =>
        if ds ≠ [] ∧ ds.all Char.isDigit then some (-(digitsToNat ds : Int)) else none
      | ds =>
        if ds ≠ [] ∧ ds.all Char.isDigit then some (digitsToNat ds) else none
    else none

/-- The mantissa of a float literal: digits, optionally a point with
further digits, at least one digit in total.  Returns its rational value
and the unconsumed rest. -/
def parseMantissa (cs : List Char) : Option (ℚ × List Char) :=
  let ip := cs.takeWhile Char.isDigit
  let rest := cs.dropWhile Char.isDigit
  match rest with
  | '.' :: rest2 =>
    let fp := rest2.takeWhile Char.isDigit
    let rest3 := rest2.dropWhile Char.isDigit
    if ip.isEmpty && fp.isEmpty then none
    else some ((digitsToNat ip : ℚ) + (digitsToNat fp : ℚ) / (10 : ℚ) ^ fp.length, rest3)
  | _ => if ip.isEmpty then none else some ((digitsToNat ip : ℚ), rest)

/-- Scale a mantissa by a signed power of ten. -/
def applyExp (m : ℚ) (e : Int) : ℚ :=
  if 0 ≤ e then m * (10 : ℚ) ^ e.toNat else m / (10 : ℚ) ^ (-e).toNat

/-- Python `float(s)` on finite decimal literals: surrounding whitespace,
an optional sign, a mantissa and an optional exponent; `none` models the
`ValueError` raised on anything else. -/
def pyFloat? (s : String) : Option ℚ :=
  let cs := (pyStrip s).data
  let signed : ℚ × List Char :=
    match cs with
    | '+' :: r => (1, r)
    | '-' :: r => (-1, r)
    | r => (1, r)
  match parseMantissa signed.2 with
  | none => none
  | some (m, rest) =>
    match parseExpPart rest with
    | none => none
    | some e => some (signed.1 * applyExp m e)

/-- Python `int()` on a float value: truncation toward zero. -/
def pyInt (q : ℚ) : Int := if 0 ≤ q then ⌊q⌋ else ⌈q⌉

/-! ## Date normalization (`datetime.strptime(s, "%m/%d/%Y")` best-effort) -/

/-- Days per month as validated by `datetime`, Gregorian leap rule. -/
def daysInMonth (y m : Nat) : Nat :=
  if m = 2 then
    if y % 4 = 0 ∧ (y % 100 ≠ 0 ∨ y % 400 = 0) then 29 else 28
  else if m = 4 ∨ m = 6 ∨ m = 9 ∨ m = 11 then 30
  else 31

/-- CPython's `%m` / `%d` directive: one or two digits, no stray leading
zero beyond width two, value within `lo..hi`. -/
def parseField2 (lo hi : Nat) (cs : List Char) : Option Nat :=
  if (cs.length = 1 ∨ cs.length = 2) ∧ cs.all Char.isDigit then
    let v := digitsToNat cs
    if lo ≤ v ∧ v ≤ hi then some v else none
  else none

/-- `datetime.strptime(s, "%m/%d/%Y")` followed by the `datetime`
constructor's validity check: month 1–12, day 1–31 and within the month,
year of exactly four digits and at least 1. -/
def parseMDY? (s : String) : Option (Nat × Nat × Nat) :=
  match s.data.splitOn '/' with
  | [ms, ds, ys] =>
    match parseField2 1 12 ms, parseField2 1 31 ds with
    | some m, some d =>
      if ys.length = 4 ∧ ys.all Char.isDigit then
        let y := digitsToNat ys
        if 1 ≤ y ∧ d ≤ daysInMonth y m then some (m, d, y) else none
      else none
    | _, _ => none
  | _ => none

/-- Zero-pad to two digits (`strftime` `%m`, `%d`). -/
def pad2 (n : Nat) : String := if n < 10 then "0" ++ toString n else toString n

/-- Zero-pad to four digits (`strftime` `%Y`; inputs here have ≤ 4 digits). -/
def pad4 (n : Nat) : String :=
  if n < 10 then "000" ++ toString n
  else if n < 100 then "00" ++ toString n
  else if n < 1000 then "0" ++ toString n
  else toString n

/-- The `try: strptime(.., "%m/%d/%Y") ... except ValueError: pass` block:
reinterpret a `month/day/year` date as `year-month-day`, else keep it. -/
def normalizeDate (s : String) : String :=
  match parseMDY? s with
  | some (m, d, y) => pad4 y ++ "-" ++ pad2 m ++ "-" ++ pad2 d
  | none => s

/-! ## Exceptions -/

/-- The exceptions `main.py` can raise (or that the spec's error taxonomy
names).  `headerNotFound` and `malformedQuantity` are the two explicit
`ValueError`s of `parse_csv`; `missingColumn` stands for the failure of
resolving a required column after the header is found (`header.index`
raising / the `-1` sentinel escaping — proved unreachable below);
`indexError` is a Python `IndexError` from subscripting a short row;
`fieldsValueError` is `fields.index(..)` failing in `main`;
`typeErr` is a Python `TypeError` from arithmetic on a non-numeric
stored cell. -/
inductive PyError where
  | headerNotFound
  | missingColumn
  | indexError
  | malformedQuantity
  | fieldsValueError
  | typeErr
deriving DecidableEq, Repr

/-! ## The tabular parser (`parse_csv`) -/

/-- `TARGET_TICKERS` of `main.py` as an ordered association list
(Python 3.7+ dicts iterate in insertion order). -/
def TARGET_TICKERS : List (String × String) :=
  [("MAPS", "WM Technology Inc"), ("GRWG", "GrowGeneration Corp")]

/-- First-match association-list lookup (Python dict read). -/
def lookupA {α : Type} (m : List (String × α)) (k : String) : Option α :=
  match m with
  | [] => none
  | (k', v) :: rest => if k' = k then some v else lookupA rest k

/-- Python dict write `m[k] = v`: replace in place if the key exists,
else append (insertion order preserved). -/
def updateAssoc {α : Type} (m : List (String × α)) (k : String) (v : α) :
    List (String × α) :=
  match m with
  | [] => [(k, v)]
  | (k', v') :: rest =>
    if k' = k then (k', v) :: rest else (k', v') :: updateAssoc rest k v

/-- `next((i for i, h in enumerate(l) if p h), -1)` / `l.index(..)`:
index of the first element satisfying `p`; `none` models the `-1`
sentinel (resp. the `ValueError`). -/
def findIdxA {α : Type} (p : α → Bool) : List α → Option Nat
  | [] => none
  | a :: l => if p a then some 0 else (findIdxA p l).map (· + 1)

/-- The stripped-and-uppercased fields of a line (`col_upper`). -/
def headerCols (line : String) : List String :=
  (splitLine line).map pyUpper

/-- Recognized identifier-column spellings. -/
def isTickerName (h : String) : Bool := h == "TICKER" || h == "STOCKTICKER"

/-- Header qualification: at least one recognized ticker column name and
the exact quantity column name `SHARES` among the uppercased fields. -/
def isHeaderRow (line : String) : Bool :=
  let cu := headerCols line
  (cu.any isTickerName) && cu.any (fun h => h == "SHARES")

/-- The header scan loop, carrying the running line index. -/
def findHeaderGo (i : Nat) : List String → Option (Nat × List String)
  | [] => none
  | l :: ls =>
    if isHeaderRow l then some (i, headerCols l) else findHeaderGo (i + 1) ls

/-- `for i, line in enumerate(lines[:10])`: scan the first ten lines for
the first qualifying header row; returns its index and uppercased fields. -/
def findHeader (lines : List String) : Option (Nat × List String) :=
  findHeaderGo 0 (lines.take 10)

/-- A Normalized Record: one tracked holding row. -/
structure Holding where
  date : String
  shares : Int
  weighting : ℚ
deriving DecidableEq, Repr

/-- A parsed holdings table: tracked ticker ↦ its record (last row wins). -/
abbrev HoldMap := List (String × Holding)

/-- `int(float(cols[shares_col].replace(',', '')))`; `none` models the
`ValueError` (`MalformedQuantity`). -/
def parseShares? (s : String) : Option Int :=
  (pyFloat? (removeAll ',' s)).map pyInt

/-- The weight-field coercion: delete every `%`, strip whitespace, parse
as float and divide by 100; on parse failure keep the 0.0 default. -/
def parseWeighting (s : String) : ℚ :=
  match pyFloat? (pyStrip (removeAll '%' s)) with
  | some q => q / 100
  | none => 0

/-- The guarded weighting read: column present (`weight_col != -1`),
index in range, field non-blank — else the 0.0 default. -/
def rowWeighting (wCol : Option Nat) (cols : List String) : ℚ :=
  match wCol with
  | none => 0
  | some w =>
    if h : w < cols.length then
      if cols.get ⟨w, h⟩ ≠ "" then parseWeighting (cols.get ⟨w, h⟩) else 0
    else 0

/-- The date read `cols[date_col] if date_col != -1 and cols[date_col]
else today`: Python subscripts `cols[date_col]` before testing truthiness,
so a short row raises `IndexError` here. -/
def rowDate (today : String) (dCol : Option Nat) (cols : List String) :
    Except PyError String :=
  match dCol with
  | none => .ok today
  | some d =>
    if h : d < cols.length then
      .ok (if cols.get ⟨d, h⟩ ≠ "" then cols.get ⟨d, h⟩ else today)
    else .error .indexError

/-- The body of `parse_csv`'s row loop for one line: skip blank lines and
rows with no field at the ticker column; for tracked tickers build the
Normalized Record (date best-effort, shares fallibly, weighting
tolerantly) and store it under the ticker (last occurrence wins). -/
def processRow (today : String) (dCol : Option Nat) (tCol sCol : Nat)
    (wCol : Option Nat) (hold : HoldMap) (line : String) :
    Except PyError HoldMap :=
  if pyStrip line = "" then .ok hold else
  let cols := splitLine line
  if h : tCol < cols.length then
    let ticker := pyUpper (cols.get ⟨tCol, h⟩)
    if (lookupA TARGET_TICKERS ticker).isSome then
      match rowDate today dCol cols with
      | .error e => .error e
      | .ok d0 =>
        let dateStr := normalizeDate d0
        if hs : sCol < cols.length then
          match parseShares? (cols.get ⟨sCol, hs⟩) with
          | none => .error .malformedQuantity
          | some n =>
            .ok (updateAssoc hold ticker
                  ⟨dateStr, n, rowWeighting wCol cols⟩)
        else .error .indexError
    else .ok hold
  else .ok hold

/-- `parse_csv`'s row loop over the lines after the header. -/
def processRows (today : String) (dCol : Option Nat) (tCol sCol : Nat)
    (wCol : Option Nat) (hold : HoldMap) : List String → Except PyError HoldMap
  | [] => .ok hold
  | line :: rest =>
    match processRow today dCol tCol sCol wCol hold line with
    | .error e => .error e
    | .ok hold' => processRows today dCol tCol sCol wCol hold' rest

/-- `parse_csv(lines)`: locate the header within the first ten lines,
resolve column indices by name, then fold the row loop over the remaining
lines.  `today` stands for `datetime.now().strftime("%Y-%m-%d")`. -/
def parse_csv (today : String) (lines : List String) :
    Except PyError HoldMap :=
  match findHeader lines with
  | none => .error .headerNotFound
  | some (hi, header) =>
    let dCol := findIdxA (fun h => h == "DATE") header
    match findIdxA isTickerName header with
    | none => .error .missingColumn
    | some tCol =>
      match findIdxA (fun h => h == "SHARES") header with
      | none => .error .missingColumn
      | some sCol =>
        let wCol := findIdxA (fun h => h == "WEIGHTINGS" || h == "WEIGHTING") header
        processRows today dCol tCol sCol wCol [] (lines.drop (hi + 1))

/-! ## The persisted document (`state.json`) and the change detector -/

/-- One stored position of a history entry.  `state.json` entries are JSON
arrays; this code writes a date string, an integer share count and a float
weighting, and `None` for any schema field the record lacks.  (JSON
booleans never arise from this writer and are outside the model.) -/
inductive Cell where
  | str (s : String)
  | int (n : Int)
  | num (q : ℚ)
  | null
deriving DecidableEq, Repr

/-- Python `==` on stored cells: numbers compare by value across
`int`/`float`, `None` equals only `None`, different kinds are unequal. -/
def pyEq : Cell → Cell → Bool
  | .str s, .str t => decide (s = t)
  | .int m, .int n => decide (m = n)
  | .int m, .num q => decide ((m : ℚ) = q)
  | .num q, .int m => decide (q = (m : ℚ))
  | .num p, .num q => decide (p = q)
  | .null, .null => true
  | _, _ => false

/-- Python `!=` on stored cells. -/
def pyNe (a b : Cell) : Bool := !pyEq a b

/-- A per-ticker history: positional entries, oldest first. -/
abbrev History := List (List Cell)

/-- Per-identifier histories (the `data` mapping). -/
abbrev DataMap := List (String × History)

/-- The persisted document.  `fields` is `none` when the key is absent
(`state.get("fields", default)` in `main`); `data` is the mapping added by
`state.setdefault("data", {})`. -/
structure Document where
  fields : Option (List String)
  data : DataMap
deriving DecidableEq, Repr

/-- The default schema, also used when the state file does not exist. -/
def defaultFields : List String := ["date", "shares", "weighting"]

/-- The date cell of a history entry:
`last_entry[fields.index("date")] if "date" in fields else ""`. -/
def decodeDateCell (fields : List String) (entry : List Cell) :
    Except PyError Cell :=
  match findIdxA (fun f => f == "date") fields with
  | some dIdx =>
    if h : dIdx < entry.length then .ok (entry.get ⟨dIdx, h⟩)
    else .error PyError.indexError
  | none => .ok (Cell.str "")

/-- Decoding `previous_data` from the last history entry: the date cell
(guarded by `"date" in fields`, else `""`), then the shares and weighting
cells at the precomputed indices.  Subscripting past the end of the entry
is a Python `IndexError`. -/
def decodePrev (fields : List String) (sIdx wIdx : Nat) (entry : List Cell) :
    Except PyError (Cell × Cell × Cell) :=
  match decodeDateCell fields entry with
  | .error e => .error e
  | .ok dc =>
    if hs : sIdx < entry.length then
      if hw : wIdx < entry.length then
        .ok (dc, entry.get ⟨sIdx, hs⟩, entry.get ⟨wIdx, hw⟩)
      else .error .indexError
    else .error .indexError

/-- `current.get(field, None)` projected through one schema field name. -/
def recordCell (cur : Holding) (f : String) : Cell :=
  if f = "date" then .str cur.date
  else if f = "shares" then .int cur.shares
  else if f = "weighting" then .num cur.weighting
  else .null

/-- The appended history entry: the current record projected positionally
through the schema. -/
def newRecord (fields : List String) (cur : Holding) : List Cell :=
  fields.map (recordCell cur)

/-- The structured content of one Discord alert (the webhook payload's
data, kept symbolically rather than as formatted text). -/
structure Alert where
  ticker : String
  company : String
  date : String
  currentShares : Int
  prevShares : ℚ
  delta : ℚ
  percentChange : ℚ
  increased : Bool
  currentWeighting : ℚ
  prevWeighting : ℚ
  prevWeightingNA : Bool
deriving DecidableEq, Repr

/-- Observable effects of a run: a posted webhook alert, or a `print`ed
log line. -/
inductive Event where
  | alert (a : Alert)
  | log (msg : String)
deriving DecidableEq, Repr

/-- Whether an event is a posted alert. -/
def Event.isAlert : Event → Bool
  | .alert _ => true
  | .log _ => false

/-- The alerts among a run's events, in order. -/
def alertsOf (ev : List Event) : List Alert :=
  ev.filterMap fun e =>
    match e with
    | .alert a => some a
    | .log _ => none

/-- The run's external configuration: whether `DISCORD_WEBHOOK_URL` is
set, and the transport collaborator — the HTTP status `requests.post`
returns for the alert about a given ticker. -/
structure RunConfig where
  webhook : Bool
  deliver : String → Nat

/-- The numeric value of a cell (`int`/`float`); `none` means Python
arithmetic on it raises `TypeError`. -/
def Cell.toQ? : Cell → Option ℚ
  | .int n => some n
  | .num q => some q
  | _ => none

/-- `send_discord_alert(ticker, company, current_data, previous_data)`:
without a webhook URL, print a warning and return; otherwise compute the
delta (returning silently when it is zero), derive the percent change
(zero when the previous share count is zero), build the alert and post it,
printing a log line when the transport's status is neither 200 nor 204. -/
def send_discord_alert (cfg : RunConfig) (ticker company : String)
    (current : Holding) (prev : Option (Cell × Cell × Cell)) :
    Except PyError (List Event) :=
  if !cfg.webhook then
    .ok [.log ("Warning: No DISCORD_WEBHOOK_URL set. Would have sent alert for " ++ ticker)]
  else
    match (match prev with | some (_, sc, _) => sc.toQ? | none => some 0) with
    | none => .error .typeErr
    | some prevShares =>
      let delta : ℚ := (current.shares : ℚ) - prevShares
      if delta = 0 then .ok []
      else
        let pct : ℚ := if prevShares ≠ 0 then delta / prevShares else 0
        match (match prev with | some (_, _, wc) => wc.toQ? | none => some 0) with
        | none => .error .typeErr
        | some prevW =>
          let a : Alert :=
            { ticker := ticker, company := company, date := current.date
              currentShares := current.shares, prevShares := prevShares
              delta := delta, percentChange := pct, increased := decide (0 < delta)
              currentWeighting := current.weighting * 100
              prevWeighting := prevW * 100, prevWeightingNA := prev.isNone }
          let status := cfg.deliver ticker
          if status = 200 ∨ status = 204 then .ok [.alert a]
          else .ok [.alert a, .log ("Failed to send webhook for " ++ ticker)]

/-- Fetch and decode the previous record from a history (`history[-1]`
when the history is non-empty). -/
def getPrev (fields : List String) (sIdx wIdx : Nat) (history : History) :
    Except PyError (Option (Cell × Cell × Cell)) :=
  match history.getLast? with
  | none => .ok none
  | some last =>
    match decodePrev fields sIdx wIdx last with
    | .error e => .error e
    | .ok p => .ok (some p)

/-- The compare-and-alert step of `main`'s loop: a previous record whose
shares cell differs (Python `!=`) from the current share count triggers
the change log line and the alert call; a first observation only logs. -/
def notifyStep (cfg : RunConfig) (ticker company : String) (cur : Holding)
    (prev : Option (Cell × Cell × Cell)) (events : List Event) :
    Except PyError (List Event) :=
  match prev with
  | some (_, sc, _) =>
    if pyNe (.int cur.shares) sc then
      match send_discord_alert cfg ticker company cur prev with
      | .error e => .error e
      | .ok es => .ok (events ++ (.log ("Detected change for " ++ ticker) :: es))
    else .ok events
  | none => .ok (events ++ [.log ("First time tracking " ++ ticker ++ ", initializing state without alert.")])

/-- The history-update guard of `main`'s loop: append when there is no
previous record, or the shares cell differs, or the weighting cell
differs (Python `!=` in both comparisons). -/
def shouldAppend (cur : Holding) : Option (Cell × Cell × Cell) → Bool
  | none => true
  | some (_, sc, wc) => pyNe (.int cur.shares) sc || pyNe (.num cur.weighting) wc

/-- One iteration of `main`'s `for ticker, company in TARGET_TICKERS`
loop, threading the accumulated events and the `data` mapping. -/
def processTicker (cfg : RunConfig) (holdings : HoldMap)
    (fields : List String) (sIdx wIdx : Nat)
    (acc : List Event × DataMap) (ticker company : String) :
    Except PyError (List Event × DataMap) :=
  match lookupA holdings ticker with
  | none => .ok (acc.1 ++ [.log ("Could not find " ++ ticker ++ " in live holdings.")], acc.2)
  | some cur =>
    let history := (lookupA acc.2 ticker).getD []
    match getPrev fields sIdx wIdx history with
    | .error e => .error e
    | .ok prev =>
      match notifyStep cfg ticker company cur prev acc.1 with
      | .error e => .error e
      | .ok events2 =>
        if shouldAppend cur prev then
          .ok (events2, updateAssoc acc.2 ticker (history ++ [newRecord fields cur]))
        else .ok (events2, acc.2)

/-- The detector loop over the tracked tickers. -/
def runTickers (cfg : RunConfig) (holdings : HoldMap)
    (fields : List String) (sIdx wIdx : Nat) :
    List (String × String) → List Event × DataMap →
    Except PyError (List Event × DataMap)
  | [], acc => .ok acc
  | tc :: rest, acc =>
    match processTicker cfg holdings fields sIdx wIdx acc tc.1 tc.2 with
    | .error e => .error e
    | .ok acc' => runTickers cfg holdings fields sIdx wIdx rest acc'

/-- The `main()` cycle after the fetch: parse the fetched lines, load the
document, resolve the schema indices (`fields.index` raising `ValueError`
when the schema lacks them), run the detector loop over the tracked
tickers and save the updated document.  Errors propagate and abort the
run before `save_state`. -/
def runMain (cfg : RunConfig) (today : String) (lines : List String)
    (st : Document) : Except PyError (List Event × Document) :=
  match parse_csv today lines with
  | .error e => .error e
  | .ok holdings =>
    let fields := st.fields.getD defaultFields
    match findIdxA (fun f => f == "shares") fields with
    | none => .error .fieldsValueError
    | some sIdx =>
      match findIdxA (fun f => f == "weighting") fields with
      | none => .error .fieldsValueError
      | some wIdx =>
        match runTickers cfg holdings fields sIdx wIdx TARGET_TICKERS ([], st.data) with
        | .error e => .error e
        | .ok (ev, data') => .ok (ev, { fields := st.fields, data := data' })

/-- The document on disk after an invocation: `save_state` overwrites it
only when `main` reaches the end; an unhandled error leaves it unchanged. -/
def persistedState (cfg : RunConfig) (today : String) (lines : List String)
    (st : Document) : Document :=
  match runMain cfg today lines st with
  | .ok (_, st') => st'
  | .error _ => st

/-- A run's outcome up to log noise: the posted alerts and the final
document (or the aborting error). -/
def observable (r : Except PyError (List Event × Document)) :
    Except PyError (List Alert × Document) :=
  match r with
  | .error e => .error e
  | .ok (ev, d) => .ok (alertsOf ev, d)

/-- Modelled from the spec's words, for the refinement comparison of the
weighting rule (claim C6): "strip a trailing percent marker and
surrounding whitespace, parse as float, divide by 100; on parse failure,
silently default to 0.0". -/
def weightingSpec (s : String) : ℚ :=
  let t := pyStrip s
  let u := if t.data.getLast? = some '%' then pyStrip ⟨t.data.dropLast⟩ else t
  match pyFloat? u with
  | some q => q / 100
  | none => 0

/-- After a successful step, a tracked ticker's history is settled: its
last entry decodes, and the shares and weighting cells compare equal
(Python `==`) to the current record. -/
def settledAt (fields : List String) (sIdx wIdx : Nat) (cur : Holding)
    (data : DataMap) (t : String) : Prop :=
  ∃ h last dc sc wc,
    lookupA data t = some h ∧ h.getLast? = some last ∧
    decodePrev fields sIdx wIdx last = .ok (dc, sc, wc) ∧
    pyEq (.int cur.shares) sc = true ∧ pyEq (.num cur.weighting) wc = true

/-! ## Concrete fixtures used by the witnesses -/

/-- A transport that accepts every post. -/
def cfg0 : RunConfig := ⟨true, fun _ => 200⟩

/-- A transport that rejects every post with HTTP 500. -/
def cfgFail : RunConfig := ⟨true, fun _ => 500⟩

/-- A small feed: header on line 1, one row per tracked ticker. -/
def lines0 : List String :=
  ["Ticker,Shares,Weighting", "MAPS,120,1.5%", "GRWG,50,0.5%"]

/-- The empty document of a first run. -/
def doc0 : Document := ⟨none, []⟩

/-- A document holding one prior MAPS observation of 100 shares. -/
def doc1 : Document :=
  ⟨none, [("MAPS", [[.str "2024-01-01", .int 100, .num (3/200)]])]⟩

/-- The alert the change from 100 to 120 MAPS shares produces. -/
def alert0 : Alert :=
  ⟨"MAPS", "WM Technology Inc", "2024-01-02", 120, 100, 20, 1/5, true, 3/2, 3/2, false⟩

/-- The events of running `lines0` against `doc1` on 2024-01-02. -/
def ev0 : List Event :=
  [.log "Detected change for MAPS", .alert alert0,
   .log "First time tracking GRWG, initializing state without alert."]

/-- The document that run persists. -/
def doc2 : Document :=
  ⟨none, [("MAPS", [[.str "2024-01-01", .int 100, .num (3/200)],
                    [.str "2024-01-02", .int 120, .num (3/200)]]),
          ("GRWG", [[.str "2024-01-02", .int 50, .num (1/200)]])]⟩

deriving instance DecidableEq for Except

/-- The holdings `parse_csv` extracts from `lines0` on 2024-01-02. -/
def holdings0 : HoldMap :=
  [("MAPS", ⟨"2024-01-02", 120, 3/200⟩), ("GRWG", ⟨"2024-01-02", 50, 1/200⟩)]

/-- `doc1`'s data mapping: one prior MAPS entry of 100 shares. -/
def data1 : DataMap := [("MAPS", [[.str "2024-01-01", .int 100, .num (3/200)]])]

/-- Events of the MAPS step of that run. -/
def evC1 : List Event := [.log "Detected change for MAPS", .alert alert0]

/-- Data mapping after the MAPS step of that run. -/
def dataC1 : DataMap :=
  [("MAPS", [[.str "2024-01-01", .int 100, .num (3/200)],
             [.str "2024-01-02", .int 120, .num (3/200)]])]

/-- A stored MAPS entry with the current share count but weighting 0.01. -/
def dataC2 : DataMap := [("MAPS", [[.str "2024-01-01", .int 120, .num (1/100)]])]

/-- `dataC2` after appending the weighting-only change. -/
def dataC2app : DataMap :=
  [("MAPS", [[.str "2024-01-01", .int 120, .num (1/100)],
             [.str "2024-01-02", .int 120, .num (3/200)]])]

/-! ## Helper lemmas -/

theorem findIdxA_get {α : Type} (p : α → Bool) :
    ∀ {l : List α} {i : Nat}, findIdxA p l = some i →
      ∃ hl : i < l.length, p (l.get ⟨i, hl⟩) = true := by
  intro l
  induction l with
  | nil => intro i h; simp [findIdxA] at h
  | cons a l ih =>
    intro i h
    by_cases hp : p a = true
    · simp [findIdxA, hp] at h
      subst h
      exact ⟨by simp, hp⟩
    · simp [findIdxA, hp] at h
      obtain ⟨j, hj, hij⟩ := h
      obtain ⟨hl, hpl⟩ := ih hj
      subst hij
      exact ⟨by simpa using Nat.succ_lt_succ hl, hpl⟩

theorem mem_findIdxA {α : Type} (p : α → Bool) :
    ∀ {l : List α}, (∃ x ∈ l, p x = true) → (findIdxA p l).isSome = true := by
  intro l
  induction l with
  | nil => rintro ⟨x, hx, _⟩; simp at hx
  | cons a l ih =>
    rintro ⟨x, hx, hpx⟩
    by_cases hp : p a = true
    · simp [findIdxA, hp]
    · have hex : ∃ y ∈ l, p y = true := by
        rcases List.mem_cons.mp hx with rfl | hmem
        · exact absurd hpx hp
        · exact ⟨x, hmem, hpx⟩
      have h2 := ih hex
      rw [show findIdxA p (a :: l) = (findIdxA p l).map (· + 1) by
        simp [findIdxA, hp]]
      cases hfl : findIdxA p l with
      | none => rw [hfl] at h2; simp at h2
      | some j => simp

theorem lookupA_updateAssoc_self {α : Type} (m : List (String × α)) (k : String) (v : α) :
    lookupA (updateAssoc m k v) k = some v := by
  induction m with
  | nil => simp [updateAssoc, lookupA]
  | cons p rest ih =>
    obtain ⟨a, b⟩ := p
    by_cases h : a = k
    · simp [updateAssoc, h, lookupA]
    · simp [updateAssoc, h, lookupA, ih]

theorem lookupA_updateAssoc_ne {α : Type} (m : List (String × α)) (k k' : String)
    (v : α) (hne : k' ≠ k) :
    lookupA (updateAssoc m k v) k' = lookupA m k' := by
  have hkk : ¬ k = k' := fun hh => hne hh.symm
  induction m with
  | nil => simp [updateAssoc, lookupA, hkk]
  | cons p rest ih =>
    obtain ⟨a, b⟩ := p
    by_cases h : a = k
    · simp [updateAssoc, h, lookupA, hkk]
    · by_cases h2 : a = k'
      · simp [updateAssoc, h, lookupA, h2, hne]
      · simp [updateAssoc, h, lookupA, h2, ih]

theorem pyEq_int_self (n : Int) : pyEq (.int n) (.int n) = true := by simp [pyEq]

theorem pyEq_num_self (q : ℚ) : pyEq (.num q) (.num q) = true := by simp [pyEq]

theorem decodePrev_newRecord (fields : List String) {sIdx wIdx : Nat} (cur : Holding)
    (hs : findIdxA (fun f => f == "shares") fields = some sIdx)
    (hw : findIdxA (fun f => f == "weighting") fields = some wIdx) :
    ∃ dc, decodePrev fields sIdx wIdx (newRecord fields cur) =
      .ok (dc, .int cur.shares, .num cur.weighting) := by
  obtain ⟨hsl, hsp⟩ := findIdxA_get _ hs
  obtain ⟨hwl, hwp⟩ := findIdxA_get _ hw
  have hsf : fields.get ⟨sIdx, hsl⟩ = "shares" := by simpa using hsp
  have hwf : fields.get ⟨wIdx, hwl⟩ = "weighting" := by simpa using hwp
  have hlen : (newRecord fields cur).length = fields.length := by
    simp [newRecord]
  have hsl' : sIdx < (newRecord fields cur).length := by rw [hlen]; exact hsl
  have hwl' : wIdx < (newRecord fields cur).length := by rw [hlen]; exact hwl
  have hscell : (newRecord fields cur).get ⟨sIdx, hsl'⟩ = .int cur.shares := by
    show (fields.map (recordCell cur)).get ⟨sIdx, _⟩ = _
    simp only [List.get_eq_getElem, List.getElem_map]
    rw [show fields[sIdx] = "shares" from hsf]
    rfl
  have hwcell : (newRecord fields cur).get ⟨wIdx, hwl'⟩ = .num cur.weighting := by
    show (fields.map (recordCell cur)).get ⟨wIdx, _⟩ = _
    simp only [List.get_eq_getElem, List.getElem_map]
    rw [show fields[wIdx] = "weighting" from hwf]
    rfl
  have hdate : ∃ dc, decodeDateCell fields (newRecord fields cur) = .ok dc := by
    cases hd : findIdxA (fun f => f == "date") fields with
    | none => exact ⟨.str "", by simp [decodeDateCell, hd]⟩
    | some dIdx =>
      obtain ⟨hdl, _⟩ := findIdxA_get _ hd
      have hdl' : dIdx < (newRecord fields cur).length := by rw [hlen]; exact hdl
      refine ⟨(newRecord fields cur).get ⟨dIdx, hdl'⟩, ?_⟩
      simp [decodeDateCell, hd, hdl']
  obtain ⟨dc, hdc⟩ := hdate
  refine ⟨dc, ?_⟩
  simp only [decodePrev, hdc]
  rw [dif_pos hsl', dif_pos hwl', hscell, hwcell]

/-! ## Per-ticker step lemmas for the change detector -/

theorem processTicker_notfound (cfg : RunConfig) (holdings : HoldMap)
    (fields : List String) (sIdx wIdx : Nat) (acc : List Event × DataMap)
    (t c : String) (hnf : lookupA holdings t = none) :
    processTicker cfg holdings fields sIdx wIdx acc t c =
      .ok (acc.1 ++ [.log ("Could not find " ++ t ++ " in live holdings.")], acc.2) := by
  simp [processTicker, hnf]

theorem processTicker_settles (cfg : RunConfig) (holdings : HoldMap)
    (fields : List String) (sIdx wIdx : Nat) (acc : List Event × DataMap)
    (t c : String) (cur : Holding) (ev' : List Event) (data' : DataMap)
    (hs : findIdxA (fun f => f == "shares") fields = some sIdx)
    (hw : findIdxA (fun f => f == "weighting") fields = some wIdx)
    (hcur : lookupA holdings t = some cur)
    (hrun : processTicker cfg holdings fields sIdx wIdx acc t c = .ok (ev', data')) :
    settledAt fields sIdx wIdx cur data' t := by
  simp only [processTicker, hcur] at hrun
  cases hgp : getPrev fields sIdx wIdx ((lookupA acc.2 t).getD []) with
  | error e => rw [hgp] at hrun; exact Except.noConfusion hrun
  | ok prev =>
    simp only [hgp] at hrun
    cases hns : notifyStep cfg t c cur prev acc.1 with
    | error e => rw [hns] at hrun; exact Except.noConfusion hrun
    | ok ev2 =>
      simp only [hns] at hrun
      by_cases hap : shouldAppend cur prev = true
      · rw [if_pos hap] at hrun
        simp only [Except.ok.injEq, Prod.mk.injEq] at hrun
        obtain ⟨-, hdata⟩ := hrun
        obtain ⟨dc, hdec⟩ := decodePrev_newRecord fields cur hs hw
        refine ⟨((lookupA acc.2 t).getD []) ++ [newRecord fields cur], newRecord fields cur,
          dc, .int cur.shares, .num cur.weighting, ?_, ?_, hdec, pyEq_int_self _, pyEq_num_self _⟩
        · rw [← hdata]; exact lookupA_updateAssoc_self _ _ _
        · exact List.getLast?_concat _
      · rw [if_neg hap] at hrun
        simp only [Except.ok.injEq, Prod.mk.injEq] at hrun
        obtain ⟨-, hdata⟩ := hrun
        -- `shouldAppend` is false, so there is a previous record with both
        -- cells comparing equal, and the lookup is the settled witness.
        cases prev with
        | none => exact absurd rfl hap
        | some p =>
          obtain ⟨d0, sc, wc⟩ := p
          have hboth : pyNe (.int cur.shares) sc = false ∧
              pyNe (.num cur.weighting) wc = false := by
            have h2 := hap
            simp [shouldAppend] at h2
            exact ⟨h2.1, h2.2⟩
          -- the history must be non-empty for `getPrev` to return `some`
          cases hlk : lookupA acc.2 t with
          | none =>
            rw [hlk] at hgp
            simp [getPrev] at hgp
          | some h0 =>
            rw [hlk] at hgp
            cases hlast : h0.getLast? with
            | none => simp [getPrev, hlast] at hgp
            | some last =>
              have hdec : decodePrev fields sIdx wIdx last = .ok (d0, sc, wc) := by
                simp only [getPrev, Option.getD_some, hlast] at hgp
                cases hdp : decodePrev fields sIdx wIdx last with
                | error e => rw [hdp] at hgp; exact Except.noConfusion hgp
                | ok q =>
                  rw [hdp] at hgp
                  simp only [Except.ok.injEq, Option.some.injEq] at hgp
                  rw [hgp]
              refine ⟨h0, last, d0, sc, wc, ?_, hlast, hdec, ?_, ?_⟩
              · rw [← hdata]; exact hlk
              · have h3 := hboth.1; simp [pyNe] at h3; exact h3
              · have h3 := hboth.2; simp [pyNe] at h3; exact h3

theorem processTicker_settled_noop (cfg : RunConfig) (holdings : HoldMap)
    (fields : List String) (sIdx wIdx : Nat) (ev : List Event) (data : DataMap)
    (t c : String) (cur : Holding)
    (hcur : lookupA holdings t = some cur)
    (hset : settledAt fields sIdx wIdx cur data t) :
    processTicker cfg holdings fields sIdx wIdx (ev, data) t c = .ok (ev, data) := by
  obtain ⟨h, last, dc, sc, wc, hlk, hlast, hdec, heqs, heqw⟩ := hset
  have hgp : getPrev fields sIdx wIdx ((lookupA data t).getD []) = .ok (some (dc, sc, wc)) := by
    rw [hlk]
    simp [getPrev, hlast, hdec]
  have hne : pyNe (.int cur.shares) sc = false := by simp [pyNe, heqs]
  have hnw : pyNe (.num cur.weighting) wc = false := by simp [pyNe, heqw]
  simp only [processTicker, hcur, hgp, notifyStep, shouldAppend, hne, hnw]
  simp

theorem processTicker_data_shape (cfg : RunConfig) (holdings : HoldMap)
    (fields : List String) (sIdx wIdx : Nat) (acc : List Event × DataMap)
    (t c : String) (ev' : List Event) (data' : DataMap)
    (hrun : processTicker cfg holdings fields sIdx wIdx acc t c = .ok (ev', data')) :
    data' = acc.2 ∨
      ∃ r, data' = updateAssoc acc.2 t (((lookupA acc.2 t).getD []) ++ [r]) := by
  cases hcur : lookupA holdings t with
  | none =>
    rw [processTicker_notfound _ _ _ _ _ _ _ _ hcur] at hrun
    simp only [Except.ok.injEq, Prod.mk.injEq] at hrun
    exact Or.inl hrun.2.symm
  | some cur =>
    simp only [processTicker, hcur] at hrun
    cases hgp : getPrev fields sIdx wIdx ((lookupA acc.2 t).getD []) with
    | error e => rw [hgp] at hrun; exact Except.noConfusion hrun
    | ok prev =>
      simp only [hgp] at hrun
      cases hns : notifyStep cfg t c cur prev acc.1 with
      | error e => rw [hns] at hrun; exact Except.noConfusion hrun
      | ok ev2 =>
        simp only [hns] at hrun
        by_cases hap : shouldAppend cur prev = true
        · rw [if_pos hap] at hrun
          simp only [Except.ok.injEq, Prod.mk.injEq] at hrun
          exact Or.inr ⟨newRecord fields cur, hrun.2.symm⟩
        · rw [if_neg hap] at hrun
          simp only [Except.ok.injEq, Prod.mk.injEq] at hrun
          exact Or.inl hrun.2.symm

theorem processTicker_lookup_other (cfg : RunConfig) (holdings : HoldMap)
    (fields : List String) (sIdx wIdx : Nat) (acc : List Event × DataMap)
    (t c t' : String) (ev' : List Event) (data' : DataMap) (hne : t' ≠ t)
    (hrun : processTicker cfg holdings fields sIdx wIdx acc t c = .ok (ev', data')) :
    lookupA data' t' = lookupA acc.2 t' := by
  rcases processTicker_data_shape _ _ _ _ _ _ _ _ _ _ hrun with heq | ⟨r, heq⟩
  · rw [heq]
  · rw [heq]; exact lookupA_updateAssoc_ne _ _ _ _ hne

theorem processTicker_history_prefix (cfg : RunConfig) (holdings : HoldMap)
    (fields : List String) (sIdx wIdx : Nat) (acc : List Event × DataMap)
    (t c : String) (ev' : List Event) (data' : DataMap)
    (hrun : processTicker cfg holdings fields sIdx wIdx acc t c = .ok (ev', data')) :
    ∀ k, ((lookupA acc.2 k).getD []) <+: ((lookupA data' k).getD []) := by
  intro k
  rcases processTicker_data_shape _ _ _ _ _ _ _ _ _ _ hrun with heq | ⟨r, heq⟩
  · rw [heq]
  · subst heq
    by_cases hk : k = t
    · subst hk
      rw [lookupA_updateAssoc_self]
      exact ⟨[r], by simp⟩
    · rw [lookupA_updateAssoc_ne _ _ _ _ hk]

/-- If a ticker is either absent from the parsed holdings or already
settled in the data, the step leaves the data untouched, adds no alert,
and only possibly logs. -/
theorem processTicker_stable (cfg : RunConfig) (holdings : HoldMap)
    (fields : List String) (sIdx wIdx : Nat) (ev : List Event) (data : DataMap)
    (t c : String)
    (hstable : ∀ cur, lookupA holdings t = some cur →
      settledAt fields sIdx wIdx cur data t) :
    ∃ ev2, processTicker cfg holdings fields sIdx wIdx (ev, data) t c = .ok (ev2, data) ∧
      alertsOf ev2 = alertsOf ev := by
  cases hcur : lookupA holdings t with
  | none =>
    refine ⟨ev ++ [.log ("Could not find " ++ t ++ " in live holdings.")],
      processTicker_notfound _ _ _ _ _ _ _ _ hcur, ?_⟩
    simp [alertsOf]
  | some cur =>
    exact ⟨ev, processTicker_settled_noop _ _ _ _ _ _ _ _ _ _ hcur (hstable cur hcur), rfl⟩

theorem runTickers_pair_inv (cfg : RunConfig) (holdings : HoldMap)
    (fields : List String) (sIdx wIdx : Nat) (t1 c1 t2 c2 : String)
    (acc out : List Event × DataMap)
    (h : runTickers cfg holdings fields sIdx wIdx [(t1, c1), (t2, c2)] acc = .ok out) :
    ∃ acc1, processTicker cfg holdings fields sIdx wIdx acc t1 c1 = .ok acc1 ∧
      processTicker cfg holdings fields sIdx wIdx acc1 t2 c2 = .ok out := by
  simp only [runTickers] at h
  cases h1 : processTicker cfg holdings fields sIdx wIdx acc t1 c1 with
  | error e => rw [h1] at h; exact Except.noConfusion h
  | ok acc1 =>
    simp only [h1] at h
    cases h2 : processTicker cfg holdings fields sIdx wIdx acc1 t2 c2 with
    | error e => simp only [h2] at h; exact Except.noConfusion h
    | ok acc2 =>
      simp only [h2, Except.ok.injEq] at h
      exact ⟨acc1, rfl, by rw [h2, h]⟩

theorem runMain_inv (cfg : RunConfig) (today : String) (lines : List String)
    (st : Document) (ev : List Event) (st' : Document)
    (hrun : runMain cfg today lines st = .ok (ev, st')) :
    ∃ holdings sIdx wIdx d2,
      parse_csv today lines = .ok holdings ∧
      findIdxA (fun f => f == "shares") (st.fields.getD defaultFields) = some sIdx ∧
      findIdxA (fun f => f == "weighting") (st.fields.getD defaultFields) = some wIdx ∧
      runTickers cfg holdings (st.fields.getD defaultFields) sIdx wIdx
        TARGET_TICKERS ([], st.data) = .ok (ev, d2) ∧
      st' = ⟨st.fields, d2⟩ := by
  simp only [runMain] at hrun
  cases hpc : parse_csv today lines with
  | error e => rw [hpc] at hrun; exact Except.noConfusion hrun
  | ok holdings =>
    simp only [hpc] at hrun
    cases hsi : findIdxA (fun f => f == "shares") (st.fields.getD defaultFields) with
    | none => rw [hsi] at hrun; exact Except.noConfusion hrun
    | some sIdx =>
      simp only [hsi] at hrun
      cases hwi : findIdxA (fun f => f == "weighting") (st.fields.getD defaultFields) with
      | none => rw [hwi] at hrun; exact Except.noConfusion hrun
      | some wIdx =>
        simp only [hwi] at hrun
        cases hrt : runTickers cfg holdings (st.fields.getD defaultFields) sIdx wIdx
            TARGET_TICKERS ([], st.data) with
        | error e => rw [hrt] at hrun; exact Except.noConfusion hrun
        | ok out =>
          obtain ⟨ev2, d2⟩ := out
          rw [hrt] at hrun
          simp only [Except.ok.injEq, Prod.mk.injEq] at hrun
          exact ⟨holdings, sIdx, wIdx, d2, rfl, rfl, rfl,
            by rw [hrt, hrun.1], hrun.2.symm⟩

/-! ## The claims -/

/-- C7: in every successful run, each identifier's stored history is only
ever extended at the end — the prior entries survive unchanged and in
order, so the old history is a prefix of the new one and its length never
decreases. -/
theorem claim_C7 (cfg : RunConfig) (today : String) (lines : List String)
    (st : Document) (ev : List Event) (st' : Document)
    (hrun : runMain cfg today lines st = .ok (ev, st')) :
    ∀ k, ((lookupA st.data k).getD []) <+: ((lookupA st'.data k).getD []) := by
  obtain ⟨holdings, sIdx, wIdx, d2, hpc, hsi, hwi, hrt, hst⟩ :=
    runMain_inv _ _ _ _ _ _ hrun
  rw [show TARGET_TICKERS =
    [("MAPS", "WM Technology Inc"), ("GRWG", "GrowGeneration Corp")] from rfl] at hrt
  obtain ⟨acc1, hp1, hp2⟩ := runTickers_pair_inv _ _ _ _ _ _ _ _ _ _ _ hrt
  intro k
  obtain ⟨ev1, d1⟩ := acc1
  have h1 := processTicker_history_prefix _ _ _ _ _ _ _ _ _ _ hp1 k
  have h2 := processTicker_history_prefix _ _ _ _ _ _ _ _ _ _ hp2 k
  rw [hst]
  exact h1.trans h2

/-- C1: for a tracked identifier with a previous stored record (an
integer shares cell), a successful detector step posts an alert if and
only if the current share count differs from the stored one, and every
posted alert carries `delta = current - previous` and a percent change of
`delta / previous.shares` when the previous count is non-zero, else `0`;
on a first observation (empty history) no alert is posted. -/
theorem claim_C1 (cfg : RunConfig) (holdings : HoldMap) (fields : List String)
    (sIdx wIdx : Nat) (t c : String) (data : DataMap) (ev' : List Event)
    (data' : DataMap) (cur : Holding)
    (hweb : cfg.webhook = true)
    (hcur : lookupA holdings t = some cur)
    (hrun : processTicker cfg holdings fields sIdx wIdx ([], data) t c = .ok (ev', data')) :
    (((lookupA data t).getD []).getLast? = none → ∀ a, Event.alert a ∉ ev') ∧
    (∀ last dc p wc, ((lookupA data t).getD []).getLast? = some last →
      decodePrev fields sIdx wIdx last = .ok (dc, .int p, wc) →
      ((∃ a, Event.alert a ∈ ev') ↔ cur.shares ≠ p) ∧
      (∀ a, Event.alert a ∈ ev' →
        a.delta = (cur.shares : ℚ) - (p : ℚ) ∧
        a.percentChange = if p ≠ 0 then ((cur.shares : ℚ) - (p : ℚ)) / (p : ℚ) else 0)) := by
  simp only [processTicker, hcur] at hrun
  constructor
  · intro hnone a
    have hgp : getPrev fields sIdx wIdx ((lookupA data t).getD []) = .ok none := by
      simp [getPrev, hnone]
    simp only [hgp, notifyStep, shouldAppend, List.nil_append, if_true,
      Except.ok.injEq, Prod.mk.injEq] at hrun
    obtain ⟨hev, -⟩ := hrun
    subst hev
    simp
  · intro last dc p wc hlast hdec
    have hgp : getPrev fields sIdx wIdx ((lookupA data t).getD []) =
        .ok (some (dc, .int p, wc)) := by
      simp [getPrev, hlast, hdec]
    simp only [hgp, notifyStep] at hrun
    by_cases hne : cur.shares = p
    · have hnef : pyNe (.int cur.shares) (.int p) = false := by
        simp [pyNe, pyEq, hne]
      simp only [hnef, Bool.false_eq_true, if_false, List.nil_append] at hrun
      by_cases hap : shouldAppend cur (some (dc, .int p, wc)) = true
      · rw [if_pos hap] at hrun
        simp only [Except.ok.injEq, Prod.mk.injEq] at hrun
        obtain ⟨hev, -⟩ := hrun
        subst hev
        exact ⟨by simp [hne], by simp⟩
      · rw [if_neg hap] at hrun
        simp only [Except.ok.injEq, Prod.mk.injEq] at hrun
        obtain ⟨hev, -⟩ := hrun
        subst hev
        exact ⟨by simp [hne], by simp⟩
    · have hnet : pyNe (.int cur.shares) (.int p) = true := by
        simp [pyNe, pyEq, hne]
      simp only [hnet, if_true] at hrun
      have hd0 : ¬ ((cur.shares : ℚ) - (p : ℚ) = 0) := by
        rw [sub_eq_zero]
        exact_mod_cast hne
      have htoq : Cell.toQ? (Cell.int p) = some ((p : Int) : ℚ) := rfl
      simp only [send_discord_alert, hweb, Bool.not_true, Bool.false_eq_true,
        if_false, htoq, if_neg hd0] at hrun
      cases hwq : Cell.toQ? wc with
      | none => rw [hwq] at hrun; exact Except.noConfusion hrun
      | some pw =>
        simp only [hwq] at hrun
        have hap : shouldAppend cur (some (dc, .int p, wc)) = true := by
          simp [shouldAppend, hnet]
        by_cases hstat : (cfg.deliver t = 200 ∨ cfg.deliver t = 204)
        · rw [if_pos hstat] at hrun
          simp only [hap, if_true, List.nil_append, Except.ok.injEq,
            Prod.mk.injEq] at hrun
          obtain ⟨hev, -⟩ := hrun
          subst hev
          refine ⟨by simp [hne], ?_⟩
          intro a ha
          simp at ha
          subst ha
          refine ⟨rfl, ?_⟩
          by_cases hp : p = 0 <;> simp [hp]
        · rw [if_neg hstat] at hrun
          simp only [hap, if_true, List.nil_append, Except.ok.injEq,
            Prod.mk.injEq] at hrun
          obtain ⟨hev, -⟩ := hrun
          subst hev
          refine ⟨by simp [hne], ?_⟩
          intro a ha
          simp at ha
          subst ha
          refine ⟨rfl, ?_⟩
          by_cases hp : p = 0 <;> simp [hp]

set_option maxRecDepth 100000 in
/-- Witness for C1 at a concrete change (100 → 120 MAPS shares). -/
theorem claim_C1_witness :
    (∃ a, Event.alert a ∈ evC1) ↔ (120 : Int) ≠ 100 :=
  ((claim_C1 cfg0 holdings0 defaultFields 1 2 "MAPS" "WM Technology Inc" data1 evC1
      dataC1 ⟨"2024-01-02", 120, 3/200⟩ rfl
      (of_decide_eq_true (by with_unfolding_all rfl))
      (of_decide_eq_true (by with_unfolding_all rfl))).2
    [.str "2024-01-01", .int 100, .num (3/200)] (.str "2024-01-01") 100 (.num (3/200))
    (of_decide_eq_true (by with_unfolding_all rfl))
    (of_decide_eq_true (by with_unfolding_all rfl))).1

set_option maxRecDepth 100000 in
/-- Witness for C7 on the concrete run `lines0` against `doc1`. -/
theorem claim_C7_witness :
    ((lookupA doc1.data "MAPS").getD []) <+: ((lookupA doc2.data "MAPS").getD []) :=
  claim_C7 cfg0 "2024-01-02" lines0 doc1 ev0 doc2
    (of_decide_eq_true (by with_unfolding_all rfl)) "MAPS"

/-- C2: for a tracked identifier present in the parsed table, a history
entry is appended exactly when there is no previous record, or the share
count differs, or the weighting differs; a first observation appends
unconditionally, and a pure weighting change appends without posting any
alert. -/
theorem claim_C2 (cfg : RunConfig) (holdings : HoldMap) (fields : List String)
    (sIdx wIdx : Nat) (t c : String) (data : DataMap) (ev' : List Event)
    (data' : DataMap) (cur : Holding)
    (hcur : lookupA holdings t = some cur)
    (hrun : processTicker cfg holdings fields sIdx wIdx ([], data) t c = .ok (ev', data')) :
    (((lookupA data t).getD []).getLast? = none →
      lookupA data' t = some (((lookupA data t).getD []) ++ [newRecord fields cur])) ∧
    (∀ last dc p w, ((lookupA data t).getD []).getLast? = some last →
      decodePrev fields sIdx wIdx last = .ok (dc, .int p, .num w) →
      (lookupA data' t =
        (if cur.shares ≠ p ∨ cur.weighting ≠ w
         then some (((lookupA data t).getD []) ++ [newRecord fields cur])
         else lookupA data t)) ∧
      (cur.shares = p → ∀ a, Event.alert a ∉ ev')) := by
  simp only [processTicker, hcur] at hrun
  constructor
  · intro hnone
    have hgp : getPrev fields sIdx wIdx ((lookupA data t).getD []) = .ok none := by
      simp [getPrev, hnone]
    simp only [hgp, notifyStep, shouldAppend, if_true, List.nil_append,
      Except.ok.injEq, Prod.mk.injEq] at hrun
    obtain ⟨-, hdata⟩ := hrun
    rw [← hdata]
    exact lookupA_updateAssoc_self _ _ _
  · intro last dc p w hlast hdec
    have hgp : getPrev fields sIdx wIdx ((lookupA data t).getD []) =
        .ok (some (dc, .int p, .num w)) := by
      simp [getPrev, hlast, hdec]
    simp only [hgp, notifyStep] at hrun
    by_cases hs : cur.shares = p
    · have hnef : pyNe (.int cur.shares) (.int p) = false := by
        simp [pyNe, pyEq, hs]
      simp only [hnef, Bool.false_eq_true, if_false] at hrun
      by_cases hwq : cur.weighting = w
      · have hap : shouldAppend cur (some (dc, .int p, .num w)) = false := by
          simp [shouldAppend, pyNe, pyEq, hs, hwq]
        simp only [hap, Bool.false_eq_true, if_false, Except.ok.injEq,
          Prod.mk.injEq] at hrun
        obtain ⟨hev, hdata⟩ := hrun
        subst hdata
        refine ⟨?_, fun _ a => by simp [← hev]⟩
        rw [if_neg (by push_neg; exact ⟨hs, hwq⟩)]
      · have hap : shouldAppend cur (some (dc, .int p, .num w)) = true := by
          simp [shouldAppend, pyNe, pyEq, hwq]
        simp only [hap, if_true, Except.ok.injEq, Prod.mk.injEq] at hrun
        obtain ⟨hev, hdata⟩ := hrun
        subst hdata
        refine ⟨?_, fun _ a => by simp [← hev]⟩
        rw [if_pos (Or.inr hwq)]
        exact lookupA_updateAssoc_self _ _ _
    · have hnet : pyNe (.int cur.shares) (.int p) = true := by
        simp [pyNe, pyEq, hs]
      simp only [hnet, if_true] at hrun
      cases hsd : send_discord_alert cfg t c cur (some (dc, .int p, .num w)) with
      | error e => rw [hsd] at hrun; exact Except.noConfusion hrun
      | ok es =>
        simp only [hsd] at hrun
        have hap : shouldAppend cur (some (dc, .int p, .num w)) = true := by
          simp [shouldAppend, hnet]
        simp only [hap, if_true, List.nil_append, Except.ok.injEq,
          Prod.mk.injEq] at hrun
        obtain ⟨-, hdata⟩ := hrun
        refine ⟨?_, fun hsp => absurd hsp hs⟩
        rw [← hdata, if_pos (Or.inl hs)]
        exact lookupA_updateAssoc_self _ _ _

set_option maxRecDepth 100000 in
/-- Witness for C2 at a concrete weighting-only change (0.01 → 0.015). -/
theorem claim_C2_witness :
    lookupA dataC2app "MAPS" =
      (if (120 : Int) ≠ 120 ∨ (3/200 : ℚ) ≠ (1/100 : ℚ)
       then some (((lookupA dataC2 "MAPS").getD []) ++
         [newRecord defaultFields ⟨"2024-01-02", 120, 3/200⟩])
       else lookupA dataC2 "MAPS") :=
  ((claim_C2 cfg0 holdings0 defaultFields 1 2 "MAPS" "WM Technology Inc" dataC2 []
      dataC2app ⟨"2024-01-02", 120, 3/200⟩
      (of_decide_eq_true (by with_unfolding_all rfl))
      (of_decide_eq_true (by with_unfolding_all rfl))).2
    [.str "2024-01-01", .int 120, .num (1/100)] (.str "2024-01-01") 120 (1/100)
    (of_decide_eq_true (by with_unfolding_all rfl))
    (of_decide_eq_true (by with_unfolding_all rfl))).1

theorem findHeaderGo_some :
    ∀ {ls : List String} {i j : Nat} {hdr : List String},
      findHeaderGo i ls = some (j, hdr) →
      ∃ k, j = i + k ∧ k < ls.length ∧
        (∃ l, ls[k]? = some l ∧ isHeaderRow l = true ∧ hdr = headerCols l) ∧
        ∀ m, m < k → ∀ l', ls[m]? = some l' → isHeaderRow l' = false := by
  intro ls
  induction ls with
  | nil => intro i j hdr h; simp [findHeaderGo] at h
  | cons a ls ih =>
    intro i j hdr h
    by_cases ha : isHeaderRow a = true
    · simp only [findHeaderGo, ha, if_true, Option.some.injEq, Prod.mk.injEq] at h
      obtain ⟨rfl, rfl⟩ := h
      exact ⟨0, by simp, by simp, ⟨a, by simp, ha, rfl⟩, by simp⟩
    · simp only [findHeaderGo, ha, Bool.false_eq_true, if_false] at h
      obtain ⟨k, hk, hlen, ⟨l, hl, hhl, hhdr⟩, hmin⟩ := ih h
      refine ⟨k + 1, by omega, by simpa using Nat.succ_lt_succ hlen,
        ⟨l, by simpa using hl, hhl, hhdr⟩, ?_⟩
      intro m hm l' hl'
      cases m with
      | zero =>
        simp only [List.getElem?_cons_zero, Option.some.injEq] at hl'
        subst hl'
        exact Bool.eq_false_iff.mpr ha
      | succ m' =>
        simp only [List.getElem?_cons_succ] at hl'
        exact hmin m' (by omega) l' hl'

/-- C3: the header scan inspects only the first ten lines, in order; a
line qualifies exactly when its stripped-and-uppercased fields contain a
recognized ticker column name and `SHARES` (the `isHeaderRow` predicate);
the first qualifying line is taken, and when none of the first ten lines
qualifies the parse fails with `headerNotFound`, the run aborts, and the
persisted document is untouched. -/
theorem claim_C3 (lines : List String) :
    (findHeader lines = findHeader (lines.take 10)) ∧
    (∀ i hdr, findHeader lines = some (i, hdr) →
      i < 10 ∧ (∃ l, lines[i]? = some l ∧ isHeaderRow l = true ∧ hdr = headerCols l) ∧
      ∀ j, j < i → ∀ l, lines[j]? = some l → isHeaderRow l = false) ∧
    (findHeader lines = none →
      ∀ today cfg st, parse_csv today lines = .error .headerNotFound ∧
        runMain cfg today lines st = .error PyError.headerNotFound ∧
        persistedState cfg today lines st = st) := by
  refine ⟨?_, ?_, ?_⟩
  · show findHeaderGo 0 (lines.take 10) = findHeaderGo 0 ((lines.take 10).take 10)
    rw [List.take_take]
    norm_num
  · intro i hdr h
    obtain ⟨k, hk, hlen, ⟨l, hl, hhl, hhdr⟩, hmin⟩ := findHeaderGo_some h
    have hik : i = k := by omega
    subst hik
    have hlt : i < 10 := lt_of_lt_of_le hlen (by simp)
    refine ⟨hlt, ⟨l, ?_, hhl, hhdr⟩, ?_⟩
    · rw [List.getElem?_take, if_pos hlt] at hl
      exact hl
    · intro j hj l' hl'
      refine hmin j hj l' ?_
      rw [List.getElem?_take, if_pos (show j < 10 by omega)]
      exact hl'
  · intro h today cfg st
    have hpc : parse_csv today lines = .error .headerNotFound := by
      simp [parse_csv, h]
    exact ⟨hpc, by simp [runMain, hpc], by simp [persistedState, runMain, hpc]⟩

set_option maxRecDepth 100000 in
/-- Witness for C3 on a feed with no qualifying header line. -/
theorem claim_C3_witness :
    parse_csv "2024-01-01" ["a,b", "c"] = .error .headerNotFound ∧
    persistedState cfg0 "2024-01-01" ["a,b", "c"] doc0 = doc0 :=
  ⟨((claim_C3 ["a,b", "c"]).2.2 (of_decide_eq_true (by with_unfolding_all rfl))
      "2024-01-01" cfg0 doc0).1,
   ((claim_C3 ["a,b", "c"]).2.2 (of_decide_eq_true (by with_unfolding_all rfl))
      "2024-01-01" cfg0 doc0).2.2⟩

/-- C4: a tracked row's share count is the comma-stripped field parsed as
a float and truncated to an integer; when that parse fails the row loop
raises `malformedQuantity`, any parse error aborts the whole run with the
same error, and the persisted document is then left unchanged. -/
theorem claim_C4 :
    (∀ cfg today lines st e, parse_csv today lines = .error e →
      runMain cfg today lines st = .error e ∧
      persistedState cfg today lines st = st) ∧
    (∀ today dCol tCol sCol wCol hold line tickerStr sharesStr d0,
      pyStrip line ≠ "" →
      (splitLine line)[tCol]? = some tickerStr →
      (lookupA TARGET_TICKERS (pyUpper tickerStr)).isSome = true →
      rowDate today dCol (splitLine line) = .ok d0 →
      (splitLine line)[sCol]? = some sharesStr →
      (pyFloat? (removeAll ',' sharesStr) = none →
        processRow today dCol tCol sCol wCol hold line = .error .malformedQuantity) ∧
      (∀ q, pyFloat? (removeAll ',' sharesStr) = some q →
        processRow today dCol tCol sCol wCol hold line =
          .ok (updateAssoc hold (pyUpper tickerStr)
            ⟨normalizeDate d0, pyInt q, rowWeighting wCol (splitLine line)⟩))) := by
  constructor
  · intro cfg today lines st e hpc
    refine ⟨by simp [runMain, hpc], ?_⟩
    simp [persistedState, runMain, hpc]
  · intro today dCol tCol sCol wCol hold line tickerStr sharesStr d0
      hblank htk hticker hdate hsk
    obtain ⟨hbt, hget⟩ := List.getElem?_eq_some.mp htk
    obtain ⟨hbs, hgets⟩ := List.getElem?_eq_some.mp hsk
    constructor
    · intro hnone
      simp only [processRow, if_neg hblank]
      rw [dif_pos hbt]
      simp only [List.get_eq_getElem, hget, hticker, if_true, hdate]
      rw [dif_pos hbs]
      simp only [List.get_eq_getElem, hgets, parseShares?, hnone, Option.map_none']
    · intro q hq
      simp only [processRow, if_neg hblank]
      rw [dif_pos hbt]
      simp only [List.get_eq_getElem, hget, hticker, if_true, hdate]
      rw [dif_pos hbs]
      simp only [List.get_eq_getElem, hgets, parseShares?, hq, Option.map_some']

set_option maxRecDepth 100000 in
/-- Witness for C4 at a concrete unparsable quantity field. -/
theorem claim_C4_witness :
    processRow "2024-01-01" none 0 1 none [] "MAPS,abc" = .error .malformedQuantity ∧
    runMain cfg0 "2024-01-01" ["Ticker,Shares", "MAPS,abc"] doc1 =
      .error PyError.malformedQuantity ∧
    persistedState cfg0 "2024-01-01" ["Ticker,Shares", "MAPS,abc"] doc1 = doc1 :=
  ⟨(claim_C4.2 "2024-01-01" none 0 1 none [] "MAPS,abc" "MAPS" "abc" "2024-01-01"
      (of_decide_eq_true (by with_unfolding_all rfl))
      (of_decide_eq_true (by with_unfolding_all rfl))
      (of_decide_eq_true (by with_unfolding_all rfl))
      (of_decide_eq_true (by with_unfolding_all rfl))
      (of_decide_eq_true (by with_unfolding_all rfl))).1
    (of_decide_eq_true (by with_unfolding_all rfl)),
   (claim_C4.1 cfg0 "2024-01-01" ["Ticker,Shares", "MAPS,abc"] doc1 .malformedQuantity
      (of_decide_eq_true (by with_unfolding_all rfl))).1,
   (claim_C4.1 cfg0 "2024-01-01" ["Ticker,Shares", "MAPS,abc"] doc1 .malformedQuantity
      (of_decide_eq_true (by with_unfolding_all rfl))).2⟩

theorem alertsOf_nil_all {ev : List Event} (h : alertsOf ev = []) :
    ev.all (fun e => !e.isAlert) = true := by
  induction ev with
  | nil => rfl
  | cons e t ih =>
    cases e with
    | alert a => simp [alertsOf] at h
    | log m =>
      have ht : alertsOf t = [] := by simpa [alertsOf] using h
      have h2 := ih ht
      simp only [List.all_cons, h2, Bool.and_true]
      rfl

/-- C5: idempotence — after a successful run has persisted its updates,
running again on the same fetched lines succeeds, posts no alert, and
leaves the persisted document exactly as it was (no history entry is
appended for any tracked identifier). -/
theorem claim_C5 (cfg : RunConfig) (today : String) (lines : List String)
    (st : Document) (ev : List Event) (st' : Document)
    (hrun : runMain cfg today lines st = .ok (ev, st')) :
    ∃ ev2, runMain cfg today lines st' = .ok (ev2, st') ∧
      ev2.all (fun e => !e.isAlert) = true := by
  obtain ⟨holdings, sIdx, wIdx, d2, hpc, hsi, hwi, hrt, hst⟩ :=
    runMain_inv _ _ _ _ _ _ hrun
  subst hst
  rw [show TARGET_TICKERS =
    [("MAPS", "WM Technology Inc"), ("GRWG", "GrowGeneration Corp")] from rfl] at hrt
  obtain ⟨acc1, hp1, hp2⟩ := runTickers_pair_inv _ _ _ _ _ _ _ _ _ _ _ hrt
  obtain ⟨ev1, d1⟩ := acc1
  have hsetM : ∀ cur, lookupA holdings "MAPS" = some cur →
      settledAt (st.fields.getD defaultFields) sIdx wIdx cur d2 "MAPS" := by
    intro cur hcur
    have h1 := processTicker_settles _ _ _ _ _ _ _ _ _ _ _ hsi hwi hcur hp1
    have hlk := processTicker_lookup_other _ _ _ _ _ _ _ _ _ _ _
      (show "MAPS" ≠ "GRWG" by decide) hp2
    obtain ⟨h, last, dc, sc, wc, hl, hla, hd, he1, he2⟩ := h1
    exact ⟨h, last, dc, sc, wc, by rw [hlk]; exact hl, hla, hd, he1, he2⟩
  have hsetG : ∀ cur, lookupA holdings "GRWG" = some cur →
      settledAt (st.fields.getD defaultFields) sIdx wIdx cur d2 "GRWG" :=
    fun cur hcur => processTicker_settles _ _ _ _ _ _ _ _ _ _ _ hsi hwi hcur hp2
  obtain ⟨evA, hA, haA⟩ := processTicker_stable cfg holdings
    (st.fields.getD defaultFields) sIdx wIdx [] d2 "MAPS" "WM Technology Inc" hsetM
  obtain ⟨evB, hB, haB⟩ := processTicker_stable cfg holdings
    (st.fields.getD defaultFields) sIdx wIdx evA d2 "GRWG" "GrowGeneration Corp" hsetG
  refine ⟨evB, ?_, alertsOf_nil_all (by rw [haB, haA]; rfl)⟩
  simp only [runMain, hpc, hsi, hwi, TARGET_TICKERS, runTickers, hA, hB]

set_option maxRecDepth 100000 in
/-- Witness for C5: the second run on the persisted `doc2` is a no-op. -/
theorem claim_C5_witness :
    ∃ ev2, runMain cfg0 "2024-01-02" lines0 doc2 = .ok (ev2, doc2) ∧
      ev2.all (fun e => !e.isAlert) = true :=
  claim_C5 cfg0 "2024-01-02" lines0 doc1 ev0 doc2
    (of_decide_eq_true (by with_unfolding_all rfl))

set_option maxRecDepth 100000 in
/-- C6 counterexample: the code deletes every percent sign before parsing
(`replace('%','')`), not just a trailing one.  On the field `"1%5"` the
spec's reading (strip a trailing percent marker, parse, default to 0 on
failure) yields 0, while the code parses `"15"` and yields 0.15 — also
end-to-end through `parse_csv`. -/
theorem claim_C6_counterexample :
    parse_csv "2024-01-01" ["Ticker,Shares,Weighting", "MAPS,100,1%5"] =
      .ok [("MAPS", ⟨"2024-01-01", 100, 3/20⟩)] ∧
    weightingSpec "1%5" = 0 ∧
    parseWeighting "1%5" = 3/20 ∧
    parseWeighting "1%5" ≠ weightingSpec "1%5" :=
  of_decide_eq_true (by with_unfolding_all rfl)

/-- C6 (amended): the weighting of a tracked row is the field with every
percent marker removed and surrounding whitespace stripped, parsed as a
float and divided by 100 ("1.50%" yields 0.015, well within 1e-9); on
parse failure, or when the weight column is absent, out of range for the
row, or blank, it silently defaults to 0 and no error is raised. -/
theorem claim_C6 :
    (∀ s q, pyFloat? (pyStrip (removeAll '%' s)) = some q → parseWeighting s = q / 100) ∧
    (∀ s, pyFloat? (pyStrip (removeAll '%' s)) = none → parseWeighting s = 0) ∧
    (∀ cols, rowWeighting none cols = 0) ∧
    (∀ cols w, cols.length ≤ w → rowWeighting (some w) cols = 0) ∧
    (∀ cols w (h : w < cols.length), cols.get ⟨w, h⟩ = "" →
      rowWeighting (some w) cols = 0) ∧
    (∀ cols w (h : w < cols.length), cols.get ⟨w, h⟩ ≠ "" →
      rowWeighting (some w) cols = parseWeighting (cols.get ⟨w, h⟩)) ∧
    |parseWeighting "1.50%" - 15/1000| ≤ 1/1000000000 := by
  refine ⟨?_, ?_, ?_, ?_, ?_, ?_, ?_⟩
  · intro s q h
    simp [parseWeighting, h]
  · intro s h
    simp [parseWeighting, h]
  · intro cols
    rfl
  · intro cols w hle
    simp only [rowWeighting]
    rw [dif_neg (not_lt.mpr hle)]
  · intro cols w h hblank
    simp only [rowWeighting]
    rw [dif_pos h, if_neg (by simpa using hblank)]
  · intro cols w h hnb
    simp only [rowWeighting]
    rw [dif_pos h, if_pos hnb]
  · have hv : parseWeighting "1.50%" = 3/200 :=
      of_decide_eq_true (by with_unfolding_all rfl)
    rw [hv]
    norm_num

/-- Witness for C6 at the field "1.50%". -/
theorem claim_C6_witness :
    parseWeighting "1.50%" = (3/2 : ℚ) / 100 :=
  claim_C6.1 "1.50%" (3/2) (of_decide_eq_true (by with_unfolding_all rfl))

theorem alertsOf_append (a b : List Event) :
    alertsOf (a ++ b) = alertsOf a ++ alertsOf b :=
  List.filterMap_append _ _ _

theorem alertsOf_log (m : String) (es : List Event) :
    alertsOf (.log m :: es) = alertsOf es := by
  simp [alertsOf]

theorem send_alertsOf_eq (w : Bool) (d1 d2 : String → Nat) (t c : String)
    (cur : Holding) (prev : Option (Cell × Cell × Cell)) :
    Except.map alertsOf (send_discord_alert ⟨w, d1⟩ t c cur prev) =
    Except.map alertsOf (send_discord_alert ⟨w, d2⟩ t c cur prev) := by
  cases w with
  | false => rfl
  | true =>
    simp only [send_discord_alert, Bool.not_true, Bool.false_eq_true, if_false]
    cases hsq : (match prev with | some (_, sc, _) => sc.toQ? | none => some 0) with
    | none => rfl
    | some ps =>
      simp only
      by_cases hd : ((cur.shares : ℚ) - ps = 0)
      · rw [if_pos hd, if_pos hd]
      · rw [if_neg hd, if_neg hd]
        cases hwq : (match prev with | some (_, _, wc) => wc.toQ? | none => some 0) with
        | none => rfl
        | some pw =>
          simp only
          by_cases h1 : (d1 t = 200 ∨ d1 t = 204) <;>
            by_cases h2 : (d2 t = 200 ∨ d2 t = 204) <;>
            simp [h1, h2, alertsOf, Except.map]

theorem processTicker_alertsOf_eq (w : Bool) (d1 d2 : String → Nat)
    (holdings : HoldMap) (fields : List String) (sIdx wIdx : Nat)
    (ev1 ev2 : List Event) (data : DataMap) (t c : String)
    (hev : alertsOf ev1 = alertsOf ev2) :
    Except.map (fun p => (alertsOf p.1, p.2))
      (processTicker ⟨w, d1⟩ holdings fields sIdx wIdx (ev1, data) t c) =
    Except.map (fun p => (alertsOf p.1, p.2))
      (processTicker ⟨w, d2⟩ holdings fields sIdx wIdx (ev2, data) t c) := by
  simp only [processTicker]
  cases hcur : lookupA holdings t with
  | none => simp [Except.map, alertsOf_append, hev]
  | some cur =>
    simp only
    cases hgp : getPrev fields sIdx wIdx ((lookupA data t).getD []) with
    | error e => rfl
    | ok prev =>
      simp only [notifyStep]
      cases prev with
      | none => simp [shouldAppend, Except.map, alertsOf_append, hev]
      | some p =>
        obtain ⟨dc, sc, wc⟩ := p
        simp only
        by_cases hne : pyNe (.int cur.shares) sc = true
        · simp only [hne, if_true]
          have hsend := send_alertsOf_eq w d1 d2 t c cur (some (dc, sc, wc))
          cases hs1 : send_discord_alert ⟨w, d1⟩ t c cur (some (dc, sc, wc)) with
          | error e1 =>
            cases hs2 : send_discord_alert ⟨w, d2⟩ t c cur (some (dc, sc, wc)) with
            | error e2 =>
              rw [hs1, hs2] at hsend
              simp only [Except.map, Except.error.injEq] at hsend
              simp [hsend]
            | ok es2 =>
              rw [hs1, hs2] at hsend
              exact absurd hsend (by simp [Except.map])
          | ok es1 =>
            cases hs2 : send_discord_alert ⟨w, d2⟩ t c cur (some (dc, sc, wc)) with
            | error e2 =>
              rw [hs1, hs2] at hsend
              exact absurd hsend (by simp [Except.map])
            | ok es2 =>
              rw [hs1, hs2] at hsend
              simp only [Except.map, Except.ok.injEq] at hsend
              by_cases hap : shouldAppend cur (some (dc, sc, wc)) = true <;>
                simp [hap, Except.map, alertsOf_append, alertsOf_log, hev, hsend]
        · simp only [Bool.not_eq_true] at hne
          simp only [hne, Bool.false_eq_true, if_false]
          by_cases hap : shouldAppend cur (some (dc, sc, wc)) = true <;>
            simp [hap, Except.map, hev]

theorem runTickers_pair_alertsOf_eq (w : Bool) (d1 d2 : String → Nat)
    (holdings : HoldMap) (fields : List String) (sIdx wIdx : Nat)
    (t1 c1 t2 c2 : String) (ev1 ev2 : List Event) (data : DataMap)
    (hev : alertsOf ev1 = alertsOf ev2) :
    Except.map (fun p => (alertsOf p.1, p.2))
      (runTickers ⟨w, d1⟩ holdings fields sIdx wIdx [(t1, c1), (t2, c2)] (ev1, data)) =
    Except.map (fun p => (alertsOf p.1, p.2))
      (runTickers ⟨w, d2⟩ holdings fields sIdx wIdx [(t1, c1), (t2, c2)] (ev2, data)) := by
  have h1 := processTicker_alertsOf_eq w d1 d2 holdings fields sIdx wIdx ev1 ev2 data t1 c1 hev
  cases hp1 : processTicker ⟨w, d1⟩ holdings fields sIdx wIdx (ev1, data) t1 c1 with
  | error e =>
    cases hp2 : processTicker ⟨w, d2⟩ holdings fields sIdx wIdx (ev2, data) t1 c1 with
    | error e2 =>
      rw [hp1, hp2] at h1
      simp only [Except.map, Except.error.injEq] at h1
      subst h1
      simp [runTickers, hp1, hp2, Except.map]
    | ok a2 =>
      rw [hp1, hp2] at h1
      exact absurd h1 (by simp [Except.map])
  | ok a1 =>
    cases hp2 : processTicker ⟨w, d2⟩ holdings fields sIdx wIdx (ev2, data) t1 c1 with
    | error e2 =>
      rw [hp1, hp2] at h1
      exact absurd h1 (by simp [Except.map])
    | ok a2 =>
      rw [hp1, hp2] at h1
      simp only [Except.map, Except.ok.injEq, Prod.mk.injEq] at h1
      obtain ⟨e1', dA⟩ := a1
      obtain ⟨e2', dB⟩ := a2
      obtain ⟨hA, hD⟩ := h1
      simp only at hA hD
      subst hD
      simp only [runTickers, hp1, hp2]
      have h2 := processTicker_alertsOf_eq w d1 d2 holdings fields sIdx wIdx e1' e2' dA t2 c2 hA
      cases hp3 : processTicker ⟨w, d1⟩ holdings fields sIdx wIdx (e1', dA) t2 c2 with
      | error e =>
        cases hp4 : processTicker ⟨w, d2⟩ holdings fields sIdx wIdx (e2', dA) t2 c2 with
        | error e4 =>
          rw [hp3, hp4] at h2
          simp only [Except.map, Except.error.injEq] at h2
          subst h2
          simp [runTickers, Except.map]
        | ok a4 =>
          rw [hp3, hp4] at h2
          exact absurd h2 (by simp [Except.map])
      | ok a3 =>
        cases hp4 : processTicker ⟨w, d2⟩ holdings fields sIdx wIdx (e2', dA) t2 c2 with
        | error e4 =>
          rw [hp3, hp4] at h2
          exact absurd h2 (by simp [Except.map])
        | ok a4 =>
          rw [hp3, hp4] at h2
          simp only [runTickers, Except.map, Except.ok.injEq] at h2 ⊢
          exact h2

/-- C8: the transport's verdict never affects the run — for any two
delivery oracles the run agrees on abort status, on the posted alerts,
and on the persisted document (so a delivery failure aborts nothing and
every identifier is still processed and persisted); and when the post for
an alert is rejected (status neither 200 nor 204) the only extra effect
is the failure log line accompanying the alert. -/
theorem claim_C8 :
    (∀ (w : Bool) (d1 d2 : String → Nat) (today : String) (lines : List String)
        (st : Document),
      observable (runMain ⟨w, d1⟩ today lines st) =
      observable (runMain ⟨w, d2⟩ today lines st)) ∧
    (∀ cfg t c cur prev ev a, cfg.webhook = true →
      send_discord_alert cfg t c cur prev = .ok ev →
      Event.alert a ∈ ev →
      ¬(cfg.deliver t = 200 ∨ cfg.deliver t = 204) →
      Event.log ("Failed to send webhook for " ++ t) ∈ ev) := by
  constructor
  · intro w d1 d2 today lines st
    simp only [runMain]
    cases hpc : parse_csv today lines with
    | error e => rfl
    | ok holdings =>
      simp only
      cases hsi : findIdxA (fun f => f == "shares") (st.fields.getD defaultFields) with
      | none => rfl
      | some sIdx =>
        simp only
        cases hwi : findIdxA (fun f => f == "weighting") (st.fields.getD defaultFields) with
        | none => rfl
        | some wIdx =>
          simp only
          have h := runTickers_pair_alertsOf_eq w d1 d2 holdings
            (st.fields.getD defaultFields) sIdx wIdx
            "MAPS" "WM Technology Inc" "GRWG" "GrowGeneration Corp" [] [] st.data rfl
          rw [show TARGET_TICKERS =
            [("MAPS", "WM Technology Inc"), ("GRWG", "GrowGeneration Corp")] from rfl]
          cases hr1 : runTickers ⟨w, d1⟩ holdings (st.fields.getD defaultFields) sIdx wIdx
              [("MAPS", "WM Technology Inc"), ("GRWG", "GrowGeneration Corp")]
              ([], st.data) with
          | error e1 =>
            cases hr2 : runTickers ⟨w, d2⟩ holdings (st.fields.getD defaultFields) sIdx wIdx
                [("MAPS", "WM Technology Inc"), ("GRWG", "GrowGeneration Corp")]
                ([], st.data) with
            | error e2 =>
              rw [hr1, hr2] at h
              simp only [Except.map, Except.error.injEq] at h
              simp [observable, h]
            | ok a2 =>
              rw [hr1, hr2] at h
              exact absurd h (by simp [Except.map])
          | ok a1 =>
            cases hr2 : runTickers ⟨w, d2⟩ holdings (st.fields.getD defaultFields) sIdx wIdx
                [("MAPS", "WM Technology Inc"), ("GRWG", "GrowGeneration Corp")]
                ([], st.data) with
            | error e2 =>
              rw [hr1, hr2] at h
              exact absurd h (by simp [Except.map])
            | ok a2 =>
              rw [hr1, hr2] at h
              simp only [Except.map, Except.ok.injEq, Prod.mk.injEq] at h
              obtain ⟨e1', dA⟩ := a1
              obtain ⟨e2', dB⟩ := a2
              obtain ⟨hA, hD⟩ := h
              simp only at hA hD
              subst hD
              simp [observable, hA]
  · intro cfg t c cur prev ev a hweb hsend ha hstat
    simp only [send_discord_alert, hweb, Bool.not_true, Bool.false_eq_true,
      if_false] at hsend
    cases hsq : (match prev with | some (_, sc, _) => sc.toQ? | none => some 0) with
    | none => rw [hsq] at hsend; exact Except.noConfusion hsend
    | some ps =>
      simp only [hsq] at hsend
      by_cases hd : ((cur.shares : ℚ) - ps = 0)
      · rw [if_pos hd] at hsend
        simp only [Except.ok.injEq] at hsend
        subst hsend
        simp at ha
      · rw [if_neg hd] at hsend
        cases hwq : (match prev with | some (_, _, wc) => wc.toQ? | none => some 0) with
        | none => simp only [hwq] at hsend; exact Except.noConfusion hsend
        | some pw =>
          simp only [hwq] at hsend
          rw [if_neg hstat] at hsend
          simp only [Except.ok.injEq] at hsend
          subst hsend
          simp

set_option maxRecDepth 100000 in
/-- Witness for C8: accepting vs rejecting transport on a concrete run,
and the failure log accompanying a concrete rejected alert. -/
theorem claim_C8_witness :
    observable (runMain cfg0 "2024-01-02" lines0 doc1) =
      observable (runMain cfgFail "2024-01-02" lines0 doc1) ∧
    Event.log ("Failed to send webhook for " ++ "MAPS") ∈
      [Event.alert alert0, Event.log ("Failed to send webhook for " ++ "MAPS")] :=
  ⟨claim_C8.1 true (fun _ => 200) (fun _ => 500) "2024-01-02" lines0 doc1,
   claim_C8.2 cfgFail "MAPS" "WM Technology Inc" ⟨"2024-01-02", 120, 3/200⟩
     (some (.str "2024-01-01", .int 100, .num (3/200)))
     [.alert alert0, .log ("Failed to send webhook for " ++ "MAPS")] alert0
     rfl (of_decide_eq_true (by with_unfolding_all rfl))
     (by simp) (by decide)⟩

theorem rowDate_error {today : String} {dCol : Option Nat} {cols : List String}
    {e : PyError} (h : rowDate today dCol cols = .error e) : e = .indexError := by
  cases dCol with
  | none => exact Except.noConfusion h
  | some d =>
    by_cases hd : d < cols.length
    · rw [rowDate, dif_pos hd] at h
      exact Except.noConfusion h
    · rw [rowDate, dif_neg hd] at h
      simp only [Except.error.injEq] at h
      exact h.symm

theorem processRow_error {today : String} {dCol : Option Nat} {tCol sCol : Nat}
    {wCol : Option Nat} {hold : HoldMap} {line : String} {e : PyError}
    (h : processRow today dCol tCol sCol wCol hold line = .error e) :
    e = .indexError ∨ e = .malformedQuantity := by
  simp only [processRow] at h
  by_cases hb : pyStrip line = ""
  · rw [if_pos hb] at h; exact Except.noConfusion h
  · rw [if_neg hb] at h
    by_cases ht : tCol < (splitLine line).length
    · rw [dif_pos ht] at h
      by_cases htk : (lookupA TARGET_TICKERS
          (pyUpper ((splitLine line).get ⟨tCol, ht⟩))).isSome = true
      · rw [if_pos htk] at h
        cases hrd : rowDate today dCol (splitLine line) with
        | error e2 =>
          rw [hrd] at h
          simp only [Except.error.injEq] at h
          subst h
          exact Or.inl (rowDate_error hrd)
        | ok d0 =>
          simp only [hrd] at h
          by_cases hs : sCol < (splitLine line).length
          · rw [dif_pos hs] at h
            cases hps : parseShares? ((splitLine line).get ⟨sCol, hs⟩) with
            | none =>
              rw [hps] at h
              simp only [Except.error.injEq] at h
              exact Or.inr h.symm
            | some n => rw [hps] at h; exact Except.noConfusion h
          · rw [dif_neg hs] at h
            simp only [Except.error.injEq] at h
            exact Or.inl h.symm
      · rw [if_neg htk] at h; exact Except.noConfusion h
    · rw [dif_neg ht] at h; exact Except.noConfusion h

theorem processRows_ne_missing (today : String) (dCol : Option Nat)
    (tCol sCol : Nat) (wCol : Option Nat) :
    ∀ (rows : List String) (hold : HoldMap),
      processRows today dCol tCol sCol wCol hold rows ≠ .error .missingColumn := by
  intro rows
  induction rows with
  | nil => intro hold h; exact Except.noConfusion h
  | cons line rest ih =>
    intro hold h
    simp only [processRows] at h
    cases hp : processRow today dCol tCol sCol wCol hold line with
    | error e =>
      rw [hp] at h
      simp only [Except.error.injEq] at h
      subst h
      rcases processRow_error hp with h2 | h2 <;> exact PyError.noConfusion h2
    | ok hold' =>
      rw [hp] at h
      exact ih hold' h

/-- C9: the row loop skips a data row only when it has no field at the
identifier column's index; a tracked row that does reach the identifier
column but is shorter than the shares column's index hits an unguarded
subscript, so the parse — and the whole run — aborts with an
`IndexError`, not a skip and not `malformedQuantity`. -/
theorem claim_C9 :
    parse_csv "2024-01-01" ["Ticker,Shares", "MAPS"] = .error .indexError ∧
    runMain cfg0 "2024-01-01" ["Ticker,Shares", "MAPS"] doc0 =
      .error PyError.indexError ∧
    (∀ today dCol tCol sCol wCol hold line, pyStrip line ≠ "" →
      (splitLine line).length ≤ tCol →
      processRow today dCol tCol sCol wCol hold line = .ok hold) := by
  refine ⟨of_decide_eq_true (by with_unfolding_all rfl),
    of_decide_eq_true (by with_unfolding_all rfl), ?_⟩
  intro today dCol tCol sCol wCol hold line hblank hle
  simp only [processRow, if_neg hblank]
  rw [dif_neg (not_lt.mpr hle)]

set_option maxRecDepth 100000 in
/-- Witness for C9's skip rule at a concrete short row. -/
theorem claim_C9_witness :
    processRow "2024-01-01" none 5 1 none [] "MAPS" = .ok [] :=
  claim_C9.2.2 "2024-01-01" none 5 1 none [] "MAPS"
    (of_decide_eq_true (by with_unfolding_all rfl))
    (of_decide_eq_true (by with_unfolding_all rfl))

/-- C10: once a header row is found, its qualification condition already
guarantees that both required column lookups (a ticker column and the
`SHARES` column) succeed, so the required-column-missing failure is
unreachable for the whole parse. -/
theorem claim_C10 (lines : List String) (i : Nat) (hdr : List String)
    (hfh : findHeader lines = some (i, hdr)) :
    (findIdxA isTickerName hdr).isSome = true ∧
    (findIdxA (fun h => h == "SHARES") hdr).isSome = true ∧
    ∀ today, parse_csv today lines ≠ .error .missingColumn := by
  obtain ⟨k, hk, hlen, ⟨l, hl, hhl, hhdr⟩, hmin⟩ := findHeaderGo_some hfh
  subst hhdr
  have hq := hhl
  simp only [isHeaderRow, Bool.and_eq_true] at hq
  obtain ⟨hq1, hq2⟩ := hq
  have ht1 : (findIdxA isTickerName (headerCols l)).isSome = true :=
    mem_findIdxA _ (List.any_eq_true.mp hq1)
  have ht2 : (findIdxA (fun h => h == "SHARES") (headerCols l)).isSome = true :=
    mem_findIdxA _ (List.any_eq_true.mp hq2)
  refine ⟨ht1, ht2, ?_⟩
  intro today h
  obtain ⟨tc, htc⟩ := Option.isSome_iff_exists.mp ht1
  obtain ⟨sc, hsc⟩ := Option.isSome_iff_exists.mp ht2
  simp only [parse_csv, hfh, htc, hsc] at h
  exact processRows_ne_missing _ _ _ _ _ _ _ h

set_option maxRecDepth 100000 in
/-- Witness for C10 at the concrete feed `lines0`. -/
theorem claim_C10_witness :
    (findIdxA isTickerName ["TICKER", "SHARES", "WEIGHTING"]).isSome = true ∧
    parse_csv "2024-01-01" lines0 ≠ .error .missingColumn :=
  ⟨(claim_C10 lines0 0 ["TICKER", "SHARES", "WEIGHTING"]
      (of_decide_eq_true (by with_unfolding_all rfl))).1,
   (claim_C10 lines0 0 ["TICKER", "SHARES", "WEIGHTING"]
      (of_decide_eq_true (by with_unfolding_all rfl))).2.2 "2024-01-01"⟩
